import Mathlib

/-!
Verification development for the bracket-arbitrage paper-trading core
(`core/simulation_engine.py`, `core/state_manager.py`, `core/page_builder.py`,
`core/market_discovery.py`).

Numbers are embedded as rationals (`ℚ`).  Python's `round(x, n)` is
round-half-to-even at `n` decimal places and is modelled by `roundTo n`.
Python code that can raise is embedded in `Except String`; external
collaborators (resolution feed, order-book feed) are function parameters.
-/

namespace ArbBot

attribute [local semireducible] Rat.add Rat.mul Rat.sub Rat.inv

/-- Kernel-computable floor of a rational (`/` on `ℤ` is Euclidean division,
which floors for the positive denominator). -/
def qfloor (x : ℚ) : ℤ := x.num / (x.den : ℤ)

/-- Round-half-to-even of a rational to the nearest integer, as Python's
builtin `round` behaves on the exact value. -/
def rhe (x : ℚ) : ℤ :=
  let f := qfloor x
  let r := x - (f : ℚ)
  if r < 1/2 then f
  else if (1/2 : ℚ) < r then f + 1
  else if f % 2 = 0 then f else f + 1

/-- Decidable equality for `Except`, so concrete simulator runs can be
checked by `decide`. -/
def exceptDecEq {ε α : Type} [DecidableEq ε] [DecidableEq α] :
    DecidableEq (Except ε α) := fun a b =>
  match a, b with
  | .error e1, .error e2 =>
    if h : e1 = e2 then .isTrue (congrArg Except.error h)
    else .isFalse fun hh => h (Except.error.inj hh)
  | .error _, .ok _ => .isFalse fun hh => Except.noConfusion hh
  | .ok _, .error _ => .isFalse fun hh => Except.noConfusion hh
  | .ok a1, .ok a2 =>
    if h : a1 = a2 then .isTrue (congrArg Except.ok h)
    else .isFalse fun hh => h (Except.ok.inj hh)

instance {ε α : Type} [DecidableEq ε] [DecidableEq α] : DecidableEq (Except ε α) :=
  exceptDecEq

/-- Python's `round(x, n)`: round-half-to-even at `n` decimal places. -/
def roundTo (n : ℕ) (x : ℚ) : ℚ :=
  ((rhe (x * 10 ^ n) : ℚ)) / 10 ^ n

/-- One price level of an order book (`{"price": ..., "size": ...}`). -/
structure Level where
  price : ℚ
  size : ℚ
deriving DecidableEq

/-- Order-book snapshot, the shape produced by `api_client.get_orderbook`
(fields not consumed by the embedded core are omitted). -/
structure Book where
  bids : List Level
  asks : List Level
  best_bid : ℚ
deriving DecidableEq

/-- Result dict of `simulate_buy`. -/
structure BuyFill where
  shares : ℚ
  avg_price : ℚ
  total_cost : ℚ
  slippage_vs_best : ℚ
  best_ask : ℚ
  levels_hit : ℕ
deriving DecidableEq

/-- Result dict of `simulate_sell`. -/
structure SellFill where
  shares_sold : ℚ
  proceeds : ℚ
  avg_price : ℚ
  slippage_vs_best : ℚ
  best_bid : ℚ
  levels_hit : ℕ
deriving DecidableEq

/-- Ask-side sort order: ascending by price (`sorted(asks, key=price)`). -/
def askLe (a b : Level) : Prop := a.price ≤ b.price

instance : DecidableRel askLe := fun a b => inferInstanceAs (Decidable (a.price ≤ b.price))

instance : IsTotal Level askLe := ⟨fun a b => le_total a.price b.price⟩

instance : IsTrans Level askLe := ⟨fun _ _ _ hab hbc => le_trans hab hbc⟩

/-- Bid-side sort order: descending by price (`sorted(bids, key=price, reverse=True)`). -/
def bidGe (a b : Level) : Prop := b.price ≤ a.price

instance : DecidableRel bidGe := fun a b => inferInstanceAs (Decidable (b.price ≤ a.price))

/-- `sorted(asks, key=lambda a: float(a["price"]))` — a stable ascending sort. -/
def sortedAsks (book : Book) : List Level := List.insertionSort askLe book.asks

/-- `sorted(bids, key=lambda b: float(b["price"]), reverse=True)` — stable descending. -/
def sortedBids (book : Book) : List Level := List.insertionSort bidGe book.bids

/-- `sorted_asks[0]["price"] if sorted_asks else 1.0`. -/
def bestAskOf (l : List Level) : ℚ :=
  match l with
  | [] => 1
  | a :: _ => a.price

/-- `sorted_bids[0]["price"] if sorted_bids else 0.0`. -/
def bestBidOf (l : List Level) : ℚ :=
  match l with
  | [] => 0
  | a :: _ => a.price

/-- `sum(float(a["size"]) for a in levels)`. -/
def totalSize (l : List Level) : ℚ := (l.map Level.size).sum

/-- The level-walking loop of `simulate_buy`.  State: remaining USD, filled
shares, accumulated cost, levels hit.  `remaining_usd / price` raises
`ZeroDivisionError` in Python when the level price is exactly zero, embedded
as `.error`. -/
def buyWalk (levels : List Level) (remaining_usd max_shares total_shares total_cost : ℚ)
    (levels_hit : ℕ) : Except String (ℚ × ℚ × ℚ × ℕ) :=
  match levels with
  | [] => .ok (remaining_usd, total_shares, total_cost, levels_hit)
  | level :: rest =>
    if remaining_usd ≤ 0 ∨ max_shares ≤ total_shares then
      .ok (remaining_usd, total_shares, total_cost, levels_hit)
    else if level.price = 0 then
      .error "ZeroDivisionError"
    else
      let affordable_shares := remaining_usd / level.price
      let depth_limited_shares := max_shares - total_shares
      let fill_shares := min level.size (min affordable_shares depth_limited_shares)
      if fill_shares ≤ 0 then
        .ok (remaining_usd, total_shares, total_cost, levels_hit)
      else
        let fill_cost := fill_shares * level.price
        buyWalk rest (remaining_usd - fill_cost) max_shares (total_shares + fill_shares)
          (total_cost + fill_cost) (levels_hit + 1)

/-- Builds the result dict of `simulate_buy` from the walk's raw totals. -/
def buyFillOf (sorted : List Level) (total_shares total_cost : ℚ) (levels_hit : ℕ) : BuyFill :=
  let best_ask := bestAskOf sorted
  let avg_price := total_cost / total_shares
  let slippage := if 0 < best_ask then (avg_price - best_ask) / best_ask else 0
  { shares := roundTo 4 total_shares
    avg_price := roundTo 6 avg_price
    total_cost := roundTo 4 total_cost
    slippage_vs_best := roundTo 6 slippage
    best_ask := best_ask
    levels_hit := levels_hit }

/-- `simulate_buy(orderbook, amount_usd, max_depth_pct)` from
`core/simulation_engine.py` (default `max_depth_pct` is 0.10, passed
explicitly here). -/
def simulate_buy (orderbook : Book) (amount_usd max_depth_pct : ℚ) :
    Except String (Option BuyFill) :=
  if orderbook.asks = [] then .ok none
  else
    let sorted := sortedAsks orderbook
    let max_shares := totalSize sorted * max_depth_pct
    match buyWalk sorted amount_usd max_shares 0 0 0 with
    | .error e => .error e
    | .ok (_, total_shares, total_cost, levels_hit) =>
      if total_shares = 0 then .ok none
      else .ok (some (buyFillOf sorted total_shares total_cost levels_hit))

/-- The level-walking loop of `simulate_sell`.  State: remaining shares,
accumulated proceeds, levels hit.  No division occurs in this loop. -/
def sellWalk (levels : List Level) (remaining_shares total_proceeds : ℚ)
    (levels_hit : ℕ) : ℚ × ℚ × ℕ :=
  match levels with
  | [] => (remaining_shares, total_proceeds, levels_hit)
  | level :: rest =>
    if remaining_shares ≤ 0 then (remaining_shares, total_proceeds, levels_hit)
    else
      let fill_shares := min level.size remaining_shares
      sellWalk rest (remaining_shares - fill_shares)
        (total_proceeds + fill_shares * level.price) (levels_hit + 1)

/-- Builds the result dict of `simulate_sell` from the walk's raw totals. -/
def sellFillOf (sorted : List Level) (shares_sold total_proceeds : ℚ) (levels_hit : ℕ) :
    SellFill :=
  let best_bid := bestBidOf sorted
  let avg_price := total_proceeds / shares_sold
  let slippage := if 0 < best_bid then (best_bid - avg_price) / best_bid else 0
  { shares_sold := roundTo 4 shares_sold
    proceeds := roundTo 4 total_proceeds
    avg_price := roundTo 6 avg_price
    slippage_vs_best := roundTo 6 slippage
    best_bid := best_bid
    levels_hit := levels_hit }

/-- `simulate_sell(orderbook, shares, max_depth_pct)` from
`core/simulation_engine.py`.  The only division, `total_proceeds /
shares_sold`, sits behind the `shares_sold == 0` guard, so the function is
total. -/
def simulate_sell (orderbook : Book) (shares max_depth_pct : ℚ) : Option SellFill :=
  if orderbook.bids = [] then none
  else
    let sorted := sortedBids orderbook
    let max_sellable := min shares (totalSize sorted * max_depth_pct)
    let w := sellWalk sorted max_sellable 0 0
    let shares_sold := max_sellable - w.1
    if shares_sold = 0 then none
    else some (sellFillOf sorted shares_sold w.2.1 w.2.2)

/-! ### Ledger (`core/state_manager.py`) -/

/-- A `PaperTrade` record.  Display-only fields (`strategy`, `event_title`,
`bracket_title`, `entry_time`, `condition_id`, `slippage`,
`orderbook_depth_at_entry`, `event_id`) are omitted: nothing in the embedded
core reads them.  `exit_time` is set from the clock, passed in explicitly as
`now`. -/
structure PaperTrade where
  trade_id : String
  side : String
  shares : ℚ
  entry_price : ℚ
  entry_cost : ℚ
  token_id : String
  market_id : String
  status : String
  exit_price : Option ℚ
  exit_time : Option ℚ
  pnl : Option ℚ
  fees_paid : ℚ
deriving DecidableEq

/-- `StrategyState`: the per-strategy ledger.  On-disk persistence
(`_load`/`_save`), `events_tracked`, `performance_log` and the audit log are
I/O glue and are omitted. -/
structure StrategyState where
  trades : List PaperTrade
  starting_capital : ℚ
  realized_pnl : ℚ
deriving DecidableEq

/-- `StrategyState.add_trade`. -/
def add_trade (s : StrategyState) (t : PaperTrade) : StrategyState :=
  { s with trades := s.trades ++ [t] }

/-- The `for t in self.trades` loop of `close_trade`: mutate the first trade
whose id matches and report whether one was found.  Note the source checks
only the id, not that the trade is still OPEN. -/
def closeFirst (trade_id status : String) (exit_price now pnl fees : ℚ) :
    List PaperTrade → List PaperTrade × Bool
  | [] => ([], false)
  | t :: ts =>
    if t.trade_id = trade_id then
      ({ t with status := status, exit_price := some exit_price, exit_time := some now,
                pnl := some pnl, fees_paid := fees } :: ts, true)
    else
      let r := closeFirst trade_id status exit_price now pnl fees ts
      (t :: r.1, r.2)

/-- `StrategyState.close_trade`; returns the updated state and the
`True`/`False` result.  `realized_pnl += pnl` happens exactly when a
matching trade was found. -/
def close_trade (s : StrategyState) (trade_id status : String) (exit_price pnl fees now : ℚ) :
    StrategyState × Bool :=
  let r := closeFirst trade_id status exit_price now pnl fees s.trades
  if r.2 then ({ s with trades := r.1, realized_pnl := s.realized_pnl + pnl }, true)
  else (s, false)

/-- `StrategyState.get_open_trades`. -/
def get_open_trades (s : StrategyState) : List PaperTrade :=
  s.trades.filter fun t => t.status = "OPEN"

/-- `StrategyState.get_total_invested`. -/
def get_total_invested (s : StrategyState) : ℚ :=
  ((get_open_trades s).map PaperTrade.entry_cost).sum

/-- `StrategyState.get_cash`. -/
def get_cash (s : StrategyState) : ℚ :=
  s.starting_capital + s.realized_pnl - get_total_invested s

/-- One ledger operation, for stating "after any sequence of
`open_position`/`close_position` calls". -/
inductive LedgerOp where
  | openPos (t : PaperTrade)
  | closePos (trade_id status : String) (exit_price pnl fees now : ℚ)
deriving DecidableEq

/-- Apply one ledger operation. -/
def applyOp (s : StrategyState) : LedgerOp → StrategyState
  | .openPos t => add_trade s t
  | .closePos trade_id status exit_price pnl fees now =>
    (close_trade s trade_id status exit_price pnl fees now).1

/-- Apply a sequence of ledger operations. -/
def applyOps (s : StrategyState) (ops : List LedgerOp) : StrategyState :=
  ops.foldl applyOp s

/-- The fresh ledger: `$1000` starting capital, no trades, zero realized
P&L (the `StrategyState.__init__` defaults when no state file exists). -/
def freshLedger : StrategyState :=
  { trades := [], starting_capital := 1000, realized_pnl := 0 }

/-! ### Settlement (`core/page_builder.py`, `_sync_settled_trades`) -/

/-- Result shape of the external `get_market_resolution` collaborator.
Modelled from the spec: `fetch_resolution(market_id) -> {resolved: bool,
winning_side: optional string}` (the function itself is not in the
repository's source; `_sync_settled_trades` reads `resolution["resolved"]`
and `resolution["result"]`, the winning side, with the empty string playing
the role of a falsy/absent result). -/
structure Resolution where
  resolved : Bool
  result : String
deriving DecidableEq

/-- `str.lower()`.  (`String.toLower` maps `Char.toLower` over the
characters; its byte-position recursion does not kernel-reduce, so the
equivalent character-list form is used.) -/
def pyLower (s : String) : String := String.mk (s.data.map Char.toLower)

/-- `TAKE_PROFIT_BID = 0.30`. -/
def TAKE_PROFIT_BID : ℚ := 3/10

/-- Steps 2–3 of the per-trade settlement body: fetch the order book,
record the best bid, and auto-sell when the bid reaches the take-profit
threshold.  Returns (new state, settled entry, current-bids entry); the
settled entry carries the un-rounded pnl, as `settled.append` does. -/
def takeProfitStep (orderbookOf : String → Option Book) (now : ℚ)
    (s : StrategyState) (trade : PaperTrade) :
    StrategyState × Option (String × ℚ) × Option (String × ℚ) :=
  if trade.token_id = "" then (s, none, none)
  else
    match orderbookOf trade.token_id with
    | none => (s, none, none)
    | some orderbook =>
      let best_bid := orderbook.best_bid
      let bidEntry := some (trade.token_id, best_bid)
      if TAKE_PROFIT_BID ≤ best_bid then
        match simulate_sell orderbook trade.shares (1/10) with
        | some sell_result =>
          let proceeds := sell_result.proceeds
          let pnl := proceeds - trade.entry_cost
          let exit_price := sell_result.avg_price
          ((close_trade s trade.trade_id "SOLD" (roundTo 6 exit_price) (roundTo 4 pnl) 0 now).1,
           some ("SOLD", pnl), bidEntry)
        | none => (s, none, bidEntry)
      else (s, none, bidEntry)

/-- The body of the `for trade in open_trades` loop of
`_sync_settled_trades`: resolution check first (closing WON/LOST and
skipping the order-book fetch), otherwise the take-profit step.  External
fetches are the function parameters `resolutionOf` / `orderbookOf`. -/
def sync_one_trade (resolutionOf : String → Option Resolution)
    (orderbookOf : String → Option Book) (now : ℚ)
    (s : StrategyState) (trade : PaperTrade) :
    StrategyState × Option (String × ℚ) × Option (String × ℚ) :=
  if trade.market_id ≠ "" then
    match resolutionOf trade.market_id with
    | some resolution =>
      if resolution.resolved = true ∧ resolution.result ≠ "" then
        let winner := resolution.result
        let trade_side := pyLower trade.side
        if trade_side = winner then
          let pnl := (1 - trade.entry_price) * trade.shares
          ((close_trade s trade.trade_id "WON" 1 (roundTo 4 pnl) 0 now).1,
           some ("WON", pnl), none)
        else
          let pnl := -trade.entry_cost
          ((close_trade s trade.trade_id "LOST" 0 (roundTo 4 pnl) 0 now).1,
           some ("LOST", pnl), none)
      else takeProfitStep orderbookOf now s trade
    | none => takeProfitStep orderbookOf now s trade
  else takeProfitStep orderbookOf now s trade

/-! ### Bracket selection (`core/market_discovery.py`, `select_bracket_spread`) -/

/-- A qualifying bracket dict as built by `analyze_event_brackets`.  The
selector reads only `title` and writes only `selected`; the remaining
analyzer fields (`condition_id`, `resolved`, `closed`, `end_date`, order-book
enrichments) are carried data and omitted.  A Python dict without the
`"selected"` key is modelled by `selected = false`. -/
structure Bracket where
  market_id : String
  title : String
  yes_price : ℚ
  volume : ℚ
  token_id : String
  selected : Bool
deriving DecidableEq

/-- `STRATEGY_CONFIG.get(strategy_name, {}).get("target_brackets", 8)`. -/
def targetBrackets (strategy_name : String) : ℕ :=
  if strategy_name = "trump_posts" then 8
  else if strategy_name = "mrbeast_views" then 8
  else if strategy_name = "kaito_ai" then 8
  else if strategy_name = "temperature" then 6
  else if strategy_name = "tate_posts" then 15
  else if strategy_name = "box_office" then 4
  else if strategy_name = "musk_tweets" then 10
  else if strategy_name = "album_sales" then 8
  else if strategy_name = "gpu_prices" then 6
  else 8

/-- Sort key of a scored tuple: a finite float, or `none` for
`float("inf")` (unparseable title). -/
def keyLeB (a b : Option ℚ) : Bool :=
  match a, b with
  | some x, some y => decide (x ≤ y)
  | some _, none => true
  | none, some _ => false
  | none, none => true

/-- `scored.sort(key=lambda x: x[0])` compares only the key component. -/
def scoredLe {α : Type} (p q : Option ℚ × α) : Prop := keyLeB p.1 q.1 = true

instance {α : Type} : DecidableRel (@scoredLe α) :=
  fun p q => inferInstanceAs (Decidable (keyLeB p.1 q.1 = true))

/-- Python's stable ascending `list.sort(key=lambda x: x[0])`. -/
def sortScored {α : Type} (l : List (Option ℚ × α)) : List (Option ℚ × α) :=
  List.insertionSort scoredLe l

/-- Midpoint of a bracket's parsed range, `none` for `float("inf")` when the
title is unparseable. -/
def midKey (parse : String → Option (ℚ × ℚ)) (title : String) : Option ℚ :=
  match parse title with
  | some r => some ((r.1 + r.2) / 2)
  | none => none

/-- Distance of a bracket's range midpoint from the estimate, `none` for
`float("inf")` when the title is unparseable. -/
def distKey (parse : String → Option (ℚ × ℚ)) (estimated_val : ℚ) (title : String) : Option ℚ :=
  match parse title with
  | some r => some |(r.1 + r.2) / 2 - estimated_val|
  | none => none

/-- The scoring/sorting/picking core of `select_bracket_spread`, generic in
the element type so the same code runs on plain brackets and on
identity-indexed brackets.  `withEstimate = true` is the
sort-by-distance/take-first branch; `false` is the even-spread branch. -/
def chooseScored {α : Type} (key : α → Option ℚ) (withEstimate : Bool)
    (target_n : ℕ) (l : List α) : List α :=
  let sorted := sortScored (l.map fun a => (key a, a))
  if withEstimate then (sorted.take target_n).map Prod.snd
  else
    let n := sorted.length
    if n ≤ target_n then sorted.map Prod.snd
    else if target_n = 1 then ((sorted.get? (n / 2)).map Prod.snd).toList
    else
      ((List.range target_n).map fun i =>
          (rhe (((i : ℚ) * ((n : ℚ) - 1)) / ((target_n : ℚ) - 1))).toNat).filterMap
        fun idx => (sorted.get? idx).map Prod.snd

/-- `select_bracket_spread(qualifying, strategy_name, prediction)`: the
returned list (the selected bracket dicts, which the source flags with
`selected = True`).  `parse` abstracts the regex function
`parse_bracket_range`; `prediction` is its `"estimate"` value. -/
def select_bracket_spread (parse : String → Option (ℚ × ℚ)) (strategy_name : String)
    (qualifying : List Bracket) (prediction : Option ℚ) : List Bracket :=
  if qualifying = [] then []
  else
    let target_n := min (targetBrackets strategy_name) qualifying.length
    let selected : List Bracket :=
      match prediction with
      | some estimated_val =>
        chooseScored (fun b : Bracket => distKey parse estimated_val b.title) true target_n qualifying
      | none =>
        chooseScored (fun b : Bracket => midKey parse b.title) false target_n qualifying
    selected.map fun b => { b with selected := true }

/-- Set `selected = True` on the list entries at the given positions
(`b["selected"] = True` through the aliases held in `selected`). -/
def flagFrom (idxs : List ℕ) (i : ℕ) : List Bracket → List Bracket
  | [] => []
  | b :: l =>
    (if idxs.contains i then { b with selected := true } else b) :: flagFrom idxs (i + 1) l

/-- The (catalog position, bracket) pairs `select_bracket_spread` picks:
the same scoring/sorting/picking run on identity-indexed brackets, where a
list position stands for Python object identity. -/
def selectedPairs (parse : String → Option (ℚ × ℚ)) (strategy_name : String)
    (qualifying : List Bracket) (prediction : Option ℚ) : List (ℕ × Bracket) :=
  if qualifying = [] then []
  else
    let target_n := min (targetBrackets strategy_name) qualifying.length
    match prediction with
    | some estimated_val =>
      chooseScored (fun p : ℕ × Bracket => distKey parse estimated_val p.2.title) true
        target_n qualifying.enum
    | none =>
      chooseScored (fun p : ℕ × Bracket => midKey parse p.2.title) false
        target_n qualifying.enum

/-- The catalog positions whose dicts receive `b["selected"] = True`. -/
def selectedIdxs (parse : String → Option (ℚ × ℚ)) (strategy_name : String)
    (qualifying : List Bracket) (prediction : Option ℚ) : List ℕ :=
  (selectedPairs parse strategy_name qualifying prediction).map Prod.fst

/-- Heap model of `select_bracket_spread`: the source's `for b in selected:
b["selected"] = True` mutates dict objects that alias entries of the input
`qualifying` list.  The result is (the catalog after the call — its picked
positions flagged — and the returned selection, the picked brackets with
the flag set). -/
def select_bracket_spread_post (parse : String → Option (ℚ × ℚ)) (strategy_name : String)
    (qualifying : List Bracket) (prediction : Option ℚ) : List Bracket × List Bracket :=
  (flagFrom (selectedIdxs parse strategy_name qualifying prediction) 0 qualifying,
   (selectedPairs parse strategy_name qualifying prediction).map
     fun p => { p.2 with selected := true })

/-- Modelled from the spec's words (§4.4, claim C8), for comparison with the
source embedding: clamp the target count to the number of qualifying
brackets; score each bracket by its range midpoint (plus-infinity when the
title is unparseable); stable-sort ascending by midpoint; if the target
count reaches the number of brackets return them all, if it is one take the
middle element, otherwise pick indices evenly spaced by linear interpolation
over positions `0..n-1`, each rounded to the nearest integer (ties to even,
as Python's `round`).  Selected brackets are flagged. -/
def selectSpreadSpec (parse : String → Option (ℚ × ℚ)) (target_count : ℕ)
    (qualifying : List Bracket) : List Bracket :=
  if qualifying = [] then []
  else
    let n := qualifying.length
    let t := min target_count n
    let sorted := sortScored (qualifying.map fun b => (midKey parse b.title, b))
    let picked :=
      if n ≤ t then sorted.map Prod.snd
      else if t = 1 then ((sorted.get? (n / 2)).map Prod.snd).toList
      else
        ((List.range t).map fun i =>
            (rhe (((i : ℚ) * ((n : ℚ) - 1)) / ((t : ℚ) - 1))).toNat).filterMap
          fun idx => (sorted.get? idx).map Prod.snd
    picked.map fun b => { b with selected := true }

/-! ### Concrete inputs used by counterexamples and witnesses -/

/-- One ask level of 0.0017 shares at $0.50: the 10% depth cap is 0.00017
shares, and the reported `shares` field rounds up to 0.0002. -/
def bookC3 : Book := { bids := [], asks := [{ price := 1/2, size := 17/10000 }], best_bid := 0 }

/-- The fill `simulate_buy bookC3 100 0.10` reports. -/
def fillC3 : BuyFill :=
  { shares := 2/10000, avg_price := 1/2, total_cost := 1/10000,
    slippage_vs_best := 0, best_ask := 1/2, levels_hit := 1 }

/-- Ten bids at $0.50 (used for the sell side of C3 and for C10). -/
def bookSellTen : Book :=
  { bids := [{ price := 1/2, size := 10 }], asks := [], best_bid := 1/2 }

/-- The fill `simulate_sell bookSellTen 5 0.10` reports: the 10% cap sells
only 1 of the 5 requested shares. -/
def fillSellTen : SellFill :=
  { shares_sold := 1, proceeds := 1/2, avg_price := 1/2, slippage_vs_best := 0,
    best_bid := 1/2, levels_hit := 1 }

/-- An ask priced with seven decimal places, so the six-decimal `avg_price`
rounds below the best ask. -/
def bookC5 : Book :=
  { bids := [], asks := [{ price := 1234561/10000000, size := 5 }], best_bid := 0 }

/-- The fill `simulate_buy bookC5 1 0.10` reports. -/
def fillC5 : BuyFill :=
  { shares := 1/2, avg_price := 123456/1000000, total_cost := 617/10000,
    slippage_vs_best := 0, best_ask := 1234561/10000000, levels_hit := 1 }

/-- A deep book at the same seven-decimal price: a million-share fill loses
$0.10 between `shares × avg_price` and `total_cost`. -/
def bookC6 : Book :=
  { bids := [], asks := [{ price := 1234561/10000000, size := 10000000 }], best_bid := 0 }

/-- The fill `simulate_buy bookC6 1000000000 0.10` reports. -/
def fillC6 : BuyFill :=
  { shares := 1000000, avg_price := 123456/1000000, total_cost := 1234561/10,
    slippage_vs_best := 0, best_ask := 1234561/10000000, levels_hit := 1 }

/-- A benign two-decimal book for the C6 witness. -/
def bookC6w : Book :=
  { bids := [], asks := [{ price := 1/2, size := 100 }], best_bid := 0 }

/-- The fill `simulate_buy bookC6w 10 0.10` reports. -/
def fillC6w : BuyFill :=
  { shares := 10, avg_price := 1/2, total_cost := 5,
    slippage_vs_best := 0, best_ask := 1/2, levels_hit := 1 }

/-- An already-closed trade (C1). -/
def tC1 : PaperTrade :=
  { trade_id := "T1", side := "YES", shares := 4, entry_price := 1/5, entry_cost := 4/5,
    token_id := "tok1", market_id := "", status := "WON", exit_price := some 1,
    exit_time := some 0, pnl := some (16/5), fees_paid := 0 }

/-- A ledger whose single trade is already closed and whose pnl has already
been realized once (C1). -/
def sC1 : StrategyState := { trades := [tC1], starting_capital := 1000, realized_pnl := 16/5 }

/-- An open YES trade with a six-decimal entry price (C4). -/
def tC4 : PaperTrade :=
  { trade_id := "T4", side := "YES", shares := 3, entry_price := 123456/1000000,
    entry_cost := 370368/1000000, token_id := "tok4", market_id := "M4",
    status := "OPEN", exit_price := none, exit_time := none, pnl := none, fees_paid := 0 }

/-- Ledger holding `tC4`. -/
def sC4 : StrategyState := { trades := [tC4], starting_capital := 1000, realized_pnl := 0 }

/-- Resolution feed reporting market M4 resolved YES (C4). -/
def resC4 : String → Option Resolution :=
  fun market_id => if market_id = "M4" then some { resolved := true, result := "yes" } else none

/-- An order-book feed with nothing available. -/
def obEmpty : String → Option Book := fun _ => none

/-- A resolution feed with nothing available. -/
def resEmpty : String → Option Resolution := fun _ => none

/-- An open YES trade with a clean quarter entry (C4 witness). -/
def tC4w : PaperTrade :=
  { trade_id := "T4W", side := "YES", shares := 4, entry_price := 1/4, entry_cost := 1,
    token_id := "tok4w", market_id := "M4", status := "OPEN", exit_price := none,
    exit_time := none, pnl := none, fees_paid := 0 }

/-- Ledger holding `tC4w`. -/
def sC4w : StrategyState := { trades := [tC4w], starting_capital := 1000, realized_pnl := 0 }

/-- An open trade holding 5 shares bought for $0.25 total (C10). -/
def tC10 : PaperTrade :=
  { trade_id := "T10", side := "YES", shares := 5, entry_price := 1/20, entry_cost := 1/4,
    token_id := "tok10", market_id := "", status := "OPEN", exit_price := none,
    exit_time := none, pnl := none, fees_paid := 0 }

/-- Ledger holding `tC10`. -/
def sC10 : StrategyState := { trades := [tC10], starting_capital := 1000, realized_pnl := 0 }

/-- Order-book feed serving `bookSellTen` for `tC10`'s token (C10). -/
def obC10 : String → Option Book :=
  fun token_id => if token_id = "tok10" then some bookSellTen else none

/-- Title parser that parses nothing (C9). -/
def parseNone : String → Option (ℚ × ℚ) := fun _ => none

/-- A not-yet-selected catalog bracket (C9). -/
def bC9 : Bracket :=
  { market_id := "m9", title := "100-119", yes_price := 1/20, volume := 2000,
    token_id := "tok9", selected := false }

/-! ## Lemmas about the rounding model -/

theorem qfloor_le (x : ℚ) : (qfloor x : ℚ) ≤ x := by
  have hden : (0 : ℤ) < (x.den : ℤ) := by exact_mod_cast x.den_pos
  have h : x.num / (x.den : ℤ) * (x.den : ℤ) ≤ x.num :=
    (Int.le_ediv_iff_mul_le hden).mp le_rfl
  have h2 : ((x.num / (x.den : ℤ) : ℤ) : ℚ) * ((x.den : ℤ) : ℚ) ≤ ((x.num : ℤ) : ℚ) := by
    exact_mod_cast h
  have hdenQ : (0 : ℚ) < ((x.den : ℕ) : ℚ) := by exact_mod_cast x.den_pos
  have h3 : ((x.num / (x.den : ℤ) : ℤ) : ℚ) ≤ (x.num : ℚ) / (x.den : ℚ) := by
    rw [le_div_iff₀ hdenQ]
    exact_mod_cast h2
  rw [Rat.num_div_den] at h3
  exact h3

theorem lt_qfloor_add_one (x : ℚ) : x < (qfloor x : ℚ) + 1 := by
  have hden : (0 : ℤ) < (x.den : ℤ) := by exact_mod_cast x.den_pos
  have h : x.num < (x.num / (x.den : ℤ) + 1) * (x.den : ℤ) :=
    Int.lt_ediv_add_one_mul_self x.num hden
  have hdenQ : (0 : ℚ) < ((x.den : ℕ) : ℚ) := by exact_mod_cast x.den_pos
  have h2 : (x.num : ℚ) / (x.den : ℚ) < ((x.num / (x.den : ℤ) + 1 : ℤ) : ℚ) := by
    rw [div_lt_iff₀ hdenQ]
    exact_mod_cast h
  rw [Rat.num_div_den] at h2
  calc x < ((x.num / (x.den : ℤ) + 1 : ℤ) : ℚ) := h2
    _ = (qfloor x : ℚ) + 1 := by push_cast [qfloor]; ring

theorem rhe_ge (x : ℚ) : x - 1/2 ≤ (rhe x : ℚ) := by
  have h1 := qfloor_le x
  have h2 := lt_qfloor_add_one x
  simp only [rhe]
  split
  · linarith
  · split
    · push_cast; linarith
    · split
      · linarith
      · push_cast; linarith

theorem rhe_le (x : ℚ) : (rhe x : ℚ) ≤ x + 1/2 := by
  have h1 := qfloor_le x
  have h2 := lt_qfloor_add_one x
  simp only [rhe]
  split
  · rename_i hlt
    linarith
  · split
    · rename_i hlt hgt
      push_cast
      linarith
    · split
      · rename_i hlt hgt heven
        linarith
      · rename_i hlt hgt hodd
        have hq : x - (qfloor x : ℚ) = 1/2 := le_antisymm (not_lt.mp hgt) (not_lt.mp hlt)
        push_cast
        linarith

theorem rhe_nonneg (x : ℚ) (hx : 0 ≤ x) : 0 ≤ rhe x := by
  have h1 := qfloor_le x
  have h2 := lt_qfloor_add_one x
  have hf : 0 ≤ qfloor x + 1 := by
    have h3 : (0 : ℚ) < (qfloor x : ℚ) + 1 := lt_of_le_of_lt hx h2
    have h4 : (0 : ℤ) < qfloor x + 1 := by exact_mod_cast h3
    omega
  simp only [rhe]
  split
  · rename_i hlt
    have h5 : (-1 : ℚ) < (qfloor x : ℚ) := by linarith
    have h6 : (-1 : ℤ) < qfloor x := by exact_mod_cast h5
    omega
  · split
    · omega
    · split
      · rename_i hlt hgt heven
        have hq : x - (qfloor x : ℚ) = 1/2 := le_antisymm (not_lt.mp hgt) (not_lt.mp hlt)
        have h5 : (-1 : ℚ) < (qfloor x : ℚ) := by linarith
        have h6 : (-1 : ℤ) < qfloor x := by exact_mod_cast h5
        omega
      · omega

theorem rhe_intCast (k : ℤ) : rhe (k : ℚ) = k := by
  have h1 : qfloor (k : ℚ) = k := by
    have hle := qfloor_le (k : ℚ)
    have hlt := lt_qfloor_add_one (k : ℚ)
    have h1 : qfloor (k : ℚ) ≤ k := by exact_mod_cast hle
    have h2 : k < qfloor (k : ℚ) + 1 := by exact_mod_cast hlt
    omega
  simp only [rhe, h1]
  have h2 : ((k : ℤ) : ℚ) - ((k : ℤ) : ℚ) = 0 := by ring
  simp [h2]

theorem pow_ten_pos (n : ℕ) : (0 : ℚ) < 10 ^ n := by positivity

theorem roundTo_le (n : ℕ) (x : ℚ) : roundTo n x ≤ x + 1 / (2 * 10 ^ n) := by
  have h := rhe_le (x * 10 ^ n)
  have hp := pow_ten_pos n
  rw [roundTo, div_le_iff₀ hp]
  calc (rhe (x * 10 ^ n) : ℚ) ≤ x * 10 ^ n + 1/2 := h
    _ = (x + 1 / (2 * 10 ^ n)) * 10 ^ n := by field_simp; ring

theorem roundTo_ge (n : ℕ) (x : ℚ) : x - 1 / (2 * 10 ^ n) ≤ roundTo n x := by
  have h := rhe_ge (x * 10 ^ n)
  have hp := pow_ten_pos n
  rw [roundTo, le_div_iff₀ hp]
  calc (x - 1 / (2 * 10 ^ n)) * 10 ^ n = x * 10 ^ n - 1/2 := by field_simp; ring
    _ ≤ (rhe (x * 10 ^ n) : ℚ) := h

theorem abs_roundTo_sub (n : ℕ) (x : ℚ) : |roundTo n x - x| ≤ 1 / (2 * 10 ^ n) := by
  have h1 := roundTo_le n x
  have h2 := roundTo_ge n x
  rw [abs_le]
  constructor <;> linarith

theorem roundTo_nonneg (n : ℕ) (x : ℚ) (hx : 0 ≤ x) : 0 ≤ roundTo n x := by
  have h : 0 ≤ rhe (x * 10 ^ n) :=
    rhe_nonneg _ (mul_nonneg hx (le_of_lt (pow_ten_pos n)))
  have hp := pow_ten_pos n
  rw [roundTo]
  apply div_nonneg _ (le_of_lt hp)
  exact_mod_cast h

/-- `x` lies on the `10^-n` grid (has at most `n` decimal places). -/
def gridPoint (n : ℕ) (x : ℚ) : Prop := ∃ k : ℤ, x = (k : ℚ) / 10 ^ n

theorem roundTo_gridPoint (n : ℕ) (x : ℚ) : gridPoint n (roundTo n x) :=
  ⟨rhe (x * 10 ^ n), rfl⟩

theorem gridPoint_sub (n : ℕ) (x y : ℚ) (hx : gridPoint n x) (hy : gridPoint n y) :
    gridPoint n (x - y) := by
  obtain ⟨k, hk⟩ := hx
  obtain ⟨m, hm⟩ := hy
  exact ⟨k - m, by rw [hk, hm]; push_cast; ring⟩

theorem roundTo_eq_self (n : ℕ) (x : ℚ) (hx : gridPoint n x) : roundTo n x = x := by
  obtain ⟨k, hk⟩ := hx
  have hp := pow_ten_pos n
  have hmul : x * 10 ^ n = (k : ℚ) := by rw [hk]; field_simp
  rw [roundTo, hmul, rhe_intCast, ← hk]

/-! ## Lemmas about the fill-simulator walks -/

theorem buyWalk_ts_le (levels : List Level) (remaining max_shares ts tc : ℚ) (lh : ℕ)
    (w : ℚ × ℚ × ℚ × ℕ)
    (h : buyWalk levels remaining max_shares ts tc lh = .ok w) :
    w.2.1 ≤ max ts max_shares := by
  induction levels generalizing remaining ts tc lh w with
  | nil =>
    simp only [buyWalk] at h
    injection h with h
    subst h
    exact le_max_left _ _
  | cons level rest ih =>
    simp only [buyWalk] at h
    split at h
    · injection h with h
      subst h
      exact le_max_left _ _
    · split at h
      · exact absurd h (by simp)
      · split at h
        · injection h with h
          subst h
          exact le_max_left _ _
        · rename_i hcont _ hfill
          push_neg at hcont
          have hlt : ts < max_shares := hcont.2
          push_neg at hfill
          have hfill2 : min level.size (min (remaining / level.price) (max_shares - ts))
              ≤ max_shares - ts := le_trans (min_le_right _ _) (min_le_right _ _)
          have h2 := ih _ _ _ _ _ h
          have h3 : ts + min level.size (min (remaining / level.price) (max_shares - ts))
              ≤ max_shares := by linarith
          calc w.2.1 ≤ max (ts + min level.size (min (remaining / level.price)
                (max_shares - ts))) max_shares := h2
            _ = max_shares := max_eq_right h3
            _ ≤ max ts max_shares := le_max_right _ _

theorem buyWalk_cost (ba : ℚ) (levels : List Level) (remaining max_shares ts tc : ℚ)
    (lh : ℕ) (w : ℚ × ℚ × ℚ × ℕ)
    (hlev : ∀ l ∈ levels, ba ≤ l.price)
    (hts : 0 ≤ ts) (htc : ba * ts ≤ tc)
    (h : buyWalk levels remaining max_shares ts tc lh = .ok w) :
    ts ≤ w.2.1 ∧ ba * w.2.1 ≤ w.2.2.1 := by
  induction levels generalizing remaining ts tc lh w with
  | nil =>
    simp only [buyWalk] at h
    injection h with h
    subst h
    exact ⟨le_refl _, htc⟩
  | cons level rest ih =>
    simp only [buyWalk] at h
    split at h
    · injection h with h
      subst h
      exact ⟨le_refl _, htc⟩
    · split at h
      · exact absurd h (by simp)
      · split at h
        · injection h with h
          subst h
          exact ⟨le_refl _, htc⟩
        · rename_i hcont hprice hfill
          push_neg at hfill
          have hba : ba ≤ level.price := hlev level (List.mem_cons_self _ _)
          have hfillnn : 0 ≤ min level.size (min (remaining / level.price) (max_shares - ts)) :=
            le_of_lt hfill
          have hcost : ba * (ts + min level.size (min (remaining / level.price) (max_shares - ts)))
              ≤ tc + min level.size (min (remaining / level.price) (max_shares - ts)) * level.price := by
            have hm : min level.size (min (remaining / level.price) (max_shares - ts)) * ba
                ≤ min level.size (min (remaining / level.price) (max_shares - ts)) * level.price :=
              mul_le_mul_of_nonneg_left hba hfillnn
            nlinarith
          have h2 := ih _ _ _ _ _ (fun l hl => hlev l (List.mem_cons_of_mem _ hl))
            (by linarith) hcost h
          exact ⟨le_trans (by linarith) h2.1, h2.2⟩

theorem sellWalk_remaining_nonneg (levels : List Level) (remaining proceeds : ℚ) (lh : ℕ)
    (h : 0 ≤ remaining) : 0 ≤ (sellWalk levels remaining proceeds lh).1 := by
  induction levels generalizing remaining proceeds lh with
  | nil => exact h
  | cons level rest ih =>
    simp only [sellWalk]
    split
    · exact h
    · exact ih _ _ _ (by simp only [sub_nonneg]; exact min_le_right _ _)

theorem sellWalk_of_nonpos (levels : List Level) (remaining proceeds : ℚ) (lh : ℕ)
    (h : remaining ≤ 0) : sellWalk levels remaining proceeds lh = (remaining, proceeds, lh) := by
  cases levels with
  | nil => rfl
  | cons level rest => simp only [sellWalk, if_pos h]

/-! ## Lemmas about the stable sorts -/

theorem totalSize_insertionSort (r : Level → Level → Prop) [DecidableRel r] (l : List Level) :
    totalSize (List.insertionSort r l) = totalSize l := by
  unfold totalSize
  exact List.Perm.sum_eq (List.Perm.map Level.size (List.perm_insertionSort r l))

theorem mem_of_mem_insertionSort (r : Level → Level → Prop) [DecidableRel r]
    (l : List Level) (x : Level) (hx : x ∈ List.insertionSort r l) : x ∈ l :=
  (List.perm_insertionSort r l).mem_iff.mp hx

theorem head_price_min (a : Level) (rest : List Level)
    (hs : List.Sorted askLe (a :: rest)) (x : Level) (hx : x ∈ a :: rest) :
    a.price ≤ x.price := by
  rcases List.mem_cons.mp hx with h | h
  · rw [h]
  · exact (List.sorted_cons.mp hs).1 x h

theorem sortScored_length {α : Type} (l : List (Option ℚ × α)) :
    (sortScored l).length = l.length :=
  (List.perm_insertionSort scoredLe l).length_eq

/-! ## Inversion lemmas for the simulators -/

theorem simulate_buy_some (book : Book) (amount pct : ℚ) (r : BuyFill)
    (h : simulate_buy book amount pct = .ok (some r)) :
    ∃ w : ℚ × ℚ × ℚ × ℕ,
      buyWalk (sortedAsks book) amount (totalSize (sortedAsks book) * pct) 0 0 0 = .ok w
      ∧ w.2.1 ≠ 0
      ∧ r = buyFillOf (sortedAsks book) w.2.1 w.2.2.1 w.2.2.2 := by
  simp only [simulate_buy] at h
  split at h
  · exact absurd h (by simp)
  · rcases hw : buyWalk (sortedAsks book) amount (totalSize (sortedAsks book) * pct) 0 0 0 with
      e | w
    · rw [hw] at h
      exact absurd h (by simp)
    · rw [hw] at h
      obtain ⟨rem, ts, tc, lh⟩ := w
      simp only at h
      split at h
      · exact absurd h (by simp)
      · rename_i hts
        refine ⟨(rem, ts, tc, lh), rfl, hts, ?_⟩
        injection h with h
        injection h with h
        exact h.symm

theorem simulate_sell_some (book : Book) (shares pct : ℚ) (r : SellFill)
    (h : simulate_sell book shares pct = some r) :
    book.bids ≠ []
    ∧ min shares (totalSize (sortedBids book) * pct)
        - (sellWalk (sortedBids book) (min shares (totalSize (sortedBids book) * pct)) 0 0).1 ≠ 0
    ∧ r = sellFillOf (sortedBids book)
        (min shares (totalSize (sortedBids book) * pct)
          - (sellWalk (sortedBids book) (min shares (totalSize (sortedBids book) * pct)) 0 0).1)
        (sellWalk (sortedBids book) (min shares (totalSize (sortedBids book) * pct)) 0 0).2.1
        (sellWalk (sortedBids book) (min shares (totalSize (sortedBids book) * pct)) 0 0).2.2 := by
  simp only [simulate_sell] at h
  split at h
  · exact absurd h (by simp)
  · rename_i hbids
    split at h
    · exact absurd h (by simp)
    · rename_i hss
      injection h with h
      exact ⟨hbids, hss, h.symm⟩

/-! ## Lemmas about the ledger -/

theorem closeFirst_length (trade_id status : String) (ep now pnl fees : ℚ)
    (l : List PaperTrade) :
    (closeFirst trade_id status ep now pnl fees l).1.length = l.length := by
  induction l with
  | nil => rfl
  | cons t ts ih =>
    simp only [closeFirst]
    split
    · rfl
    · simp only [List.length_cons, ih]

theorem closeFirst_found (trade_id status : String) (ep now pnl fees : ℚ)
    (l : List PaperTrade) (hmem : ∃ t ∈ l, t.trade_id = trade_id) :
    (closeFirst trade_id status ep now pnl fees l).2 = true := by
  induction l with
  | nil => simp at hmem
  | cons t ts ih =>
    simp only [closeFirst]
    split
    · rfl
    · rename_i hne
      rcases hmem with ⟨u, hu, hid⟩
      rcases List.mem_cons.mp hu with h | h
      · exact absurd (h ▸ hid) hne
      · exact ih ⟨u, h, hid⟩

theorem close_trade_realized (s : StrategyState) (trade_id status : String)
    (ep pnl fees now : ℚ) (hmem : ∃ t ∈ s.trades, t.trade_id = trade_id) :
    (close_trade s trade_id status ep pnl fees now).1.realized_pnl
      = s.realized_pnl + pnl := by
  simp only [close_trade]
  rw [closeFirst_found trade_id status ep now pnl fees s.trades hmem]
  simp

theorem close_trade_found_state (s : StrategyState) (trade_id status : String)
    (ep pnl fees now : ℚ) (hmem : ∃ t ∈ s.trades, t.trade_id = trade_id) :
    (close_trade s trade_id status ep pnl fees now).1
      = { s with trades := (closeFirst trade_id status ep now pnl fees s.trades).1,
                 realized_pnl := s.realized_pnl + pnl } := by
  simp only [close_trade]
  rw [closeFirst_found trade_id status ep now pnl fees s.trades hmem]
  simp

theorem openCosts_closeFirst (trade_id status : String) (ep now pnl fees : ℚ)
    (l : List PaperTrade) (t : PaperTrade)
    (hfind : l.find? (fun u => u.trade_id == trade_id) = some t)
    (hopen : t.status = "OPEN") (hst : status ≠ "OPEN") :
    (((closeFirst trade_id status ep now pnl fees l).1.filter
        fun u => u.status = "OPEN").map PaperTrade.entry_cost).sum
      = ((l.filter fun u => u.status = "OPEN").map PaperTrade.entry_cost).sum
          - t.entry_cost := by
  induction l with
  | nil => simp at hfind
  | cons u us ih =>
    rw [List.find?_cons] at hfind
    by_cases hid : u.trade_id = trade_id
    · have hbeq : (u.trade_id == trade_id) = true := beq_iff_eq.mpr hid
      rw [hbeq] at hfind
      injection hfind with hfind
      subst hfind
      simp only [closeFirst, if_pos hid]
      have h1 : ¬ (status = "OPEN") := hst
      simp [List.filter_cons, hopen, h1]
    · have hbeq : (u.trade_id == trade_id) = false := beq_eq_false_iff_ne.mpr hid
      rw [hbeq] at hfind
      simp only [closeFirst, if_neg hid]
      by_cases hu : u.status = "OPEN"
      · simp [List.filter_cons, hu, ih hfind]
        ring
      · simp [List.filter_cons, hu, ih hfind]

theorem applyOp_starting (s : StrategyState) (op : LedgerOp) :
    (applyOp s op).starting_capital = s.starting_capital := by
  cases op with
  | openPos t => rfl
  | closePos trade_id status ep pnl fees now =>
    simp only [applyOp, close_trade]
    split <;> rfl

theorem applyOps_starting (ops : List LedgerOp) (s : StrategyState) :
    (applyOps s ops).starting_capital = s.starting_capital := by
  induction ops generalizing s with
  | nil => rfl
  | cons op rest ih =>
    simp only [applyOps, List.foldl_cons] at *
    rw [ih, applyOp_starting]

/-! ## Lemmas about the selector's flag model -/

theorem flagFrom_length (idxs : List ℕ) (i : ℕ) (l : List Bracket) :
    (flagFrom idxs i l).length = l.length := by
  induction l generalizing i with
  | nil => rfl
  | cons b bs ih => simp only [flagFrom, List.length_cons, ih]

theorem flagFrom_get? (idxs : List ℕ) (i j : ℕ) (l : List Bracket) :
    (flagFrom idxs i l).get? j
      = (l.get? j).map fun b =>
          if idxs.contains (i + j) then { b with selected := true } else b := by
  induction l generalizing i j with
  | nil => simp [flagFrom]
  | cons b bs ih =>
    cases j with
    | zero => simp [flagFrom]
    | succ j =>
      simp only [flagFrom, List.get?_cons_succ, ih (i + 1) j]
      have : i + 1 + j = i + (j + 1) := by omega
      rw [this]

theorem buyWalk_zero_of_max_nonpos (levels : List Level) (remaining maxS : ℚ)
    (h : maxS ≤ 0) : buyWalk levels remaining maxS 0 0 0 = .ok (remaining, 0, 0, 0) := by
  cases levels with
  | nil => rfl
  | cons level rest => simp only [buyWalk, if_pos (Or.inr h)]

theorem close_trade_length (s : StrategyState) (trade_id status : String)
    (ep pnl fees now : ℚ) :
    (close_trade s trade_id status ep pnl fees now).1.trades.length = s.trades.length := by
  simp only [close_trade]
  split
  · simp [closeFirst_length]
  · rfl

theorem chooseScored_mem {α : Type} (key : α → Option ℚ) (withEstimate : Bool)
    (target_n : ℕ) (l : List α) (a : α)
    (ha : a ∈ chooseScored key withEstimate target_n l) : a ∈ l := by
  have hscored : ∀ p : Option ℚ × α, p ∈ sortScored (l.map fun x => (key x, x)) → p.2 ∈ l := by
    intro p hp
    have hp2 : p ∈ l.map fun x => (key x, x) :=
      (List.perm_insertionSort scoredLe _).mem_iff.mp hp
    obtain ⟨x, hx, hxe⟩ := List.mem_map.mp hp2
    rw [← hxe]
    exact hx
  simp only [chooseScored] at ha
  split at ha
  · obtain ⟨p, hp, hpe⟩ := List.mem_map.mp ha
    rw [← hpe]
    exact hscored p (List.take_subset _ _ hp)
  · split at ha
    · obtain ⟨p, hp, hpe⟩ := List.mem_map.mp ha
      rw [← hpe]
      exact hscored p hp
    · split at ha
      · rw [Option.mem_toList, Option.mem_def, Option.map_eq_some'] at ha
        obtain ⟨p, hp, hpe⟩ := ha
        rw [← hpe]
        exact hscored p (List.get?_mem hp)
      · rw [List.mem_filterMap] at ha
        obtain ⟨idx, _hidx, hfm⟩ := ha
        obtain ⟨p, hp, hpe⟩ := Option.map_eq_some'.mp hfm
        rw [← hpe]
        exact hscored p (List.get?_mem hp)

theorem selectedPairs_get? (parse : String → Option (ℚ × ℚ)) (strategy_name : String)
    (qualifying : List Bracket) (prediction : Option ℚ) (p : ℕ × Bracket)
    (hp : p ∈ selectedPairs parse strategy_name qualifying prediction) :
    qualifying.get? p.1 = some p.2 := by
  have hmem : p ∈ qualifying.enum := by
    simp only [selectedPairs] at hp
    split at hp
    · simp at hp
    · split at hp
      · exact chooseScored_mem _ _ _ _ _ hp
      · exact chooseScored_mem _ _ _ _ _ hp
  exact List.mem_enum_iff_get?.mp hmem

/-! ## Claim C1 — double close -/

/-- C1: the claim states that `close_position` on an unknown id or a
position that is no longer OPEN fails and leaves the ledger unchanged.  The
source's `close_trade` matches only on the id and never checks the status:
re-closing the already-WON trade `tC1` succeeds (returns `True`), mutates
the position again, and adds its pnl to `realized_pnl` a second time
(3.2 → 6.4).  This evaluates the embedded `close_trade` at that failing
input. -/
theorem C1_double_close_changes_ledger :
    (close_trade sC1 "T1" "WON" 1 (16/5) 0 0).2 = true
    ∧ (close_trade sC1 "T1" "WON" 1 (16/5) 0 0).1.realized_pnl = 32/5
    ∧ sC1.realized_pnl = 16/5 ∧ tC1.status = "WON" := by decide

/-! ## Claim C2 — cash invariant -/

/-- C2: after any sequence of `open_position`/`close_position` operations
starting from the fresh ledger, `cash()` equals the starting capital plus
`realized_pnl` minus the summed `entry_cost` of OPEN positions, exactly. -/
theorem C2_cash_invariant (ops : List LedgerOp) :
    get_cash (applyOps freshLedger ops)
      = freshLedger.starting_capital + (applyOps freshLedger ops).realized_pnl
        - ((get_open_trades (applyOps freshLedger ops)).map PaperTrade.entry_cost).sum := by
  have h := applyOps_starting ops freshLedger
  simp [get_cash, get_total_invested, h]

/-! ## Claim C7 — no-crash safety -/

/-- C7: the claim states `simulate_buy`/`simulate_sell` never raise on any
order book, including books with zero-price levels.  In the source,
`affordable_shares = remaining_usd / price` has no zero guard, so a book
whose ask side holds a zero-priced level raises `ZeroDivisionError` (here:
the embedded walk reaches its `.error` branch). -/
theorem C7_zero_price_crash :
    simulate_buy { bids := [], asks := [{ price := 0, size := 5 }], best_bid := 0 } 10 (1/10)
      = .error "ZeroDivisionError" := by decide

/-! ## Claim C3 — depth cap -/

/-- C3 counterexample: `simulate_buy` on `bookC3` (total ask size 0.0017,
cap 0.00017 shares) reports `shares = 0.0002`, which exceeds
`max_depth_fraction × total_ask_shares`, because the reported field is
rounded to 4 decimal places. -/
theorem C3_depth_cap_counterexample :
    simulate_buy bookC3 100 (1/10) = .ok (some fillC3)
    ∧ ¬ (fillC3.shares ≤ (1/10) * totalSize bookC3.asks) := by decide

/-- C3 (amended): the un-rounded fill respects the depth cap, so the
reported `shares` (rounded half-to-even at 4 decimals) can exceed
`max_depth_fraction × total_ask_shares` by at most the rounding slack
0.00005; symmetrically, `shares_sold` is at most
`min(requested, fraction × total_bid_shares) + 0.00005`. -/
theorem C3_depth_cap_rounded :
    (∀ (book : Book) (amount pct : ℚ) (r : BuyFill),
        simulate_buy book amount pct = .ok (some r) →
        r.shares ≤ pct * totalSize book.asks + 1/20000)
    ∧ (∀ (book : Book) (shares pct : ℚ) (r : SellFill),
        simulate_sell book shares pct = some r →
        r.shares_sold ≤ min shares (pct * totalSize book.bids) + 1/20000) := by
  constructor
  · intro book amount pct r h
    obtain ⟨w, hw, hts, hr⟩ := simulate_buy_some book amount pct r h
    have htot : totalSize (sortedAsks book) = totalSize book.asks :=
      totalSize_insertionSort askLe book.asks
    by_cases hms : totalSize (sortedAsks book) * pct ≤ 0
    · rw [buyWalk_zero_of_max_nonpos _ _ _ hms] at hw
      injection hw with hw
      rw [← hw] at hts
      exact absurd rfl hts
    · push_neg at hms
      have h1 := buyWalk_ts_le _ _ _ _ _ _ _ hw
      have h2 : w.2.1 ≤ totalSize (sortedAsks book) * pct := by
        have : max (0 : ℚ) (totalSize (sortedAsks book) * pct)
            = totalSize (sortedAsks book) * pct := max_eq_right (le_of_lt hms)
        rw [this] at h1
        exact h1
      have h3 : r.shares = roundTo 4 w.2.1 := by rw [hr]; rfl
      have h4 : roundTo 4 w.2.1 ≤ w.2.1 + 1/20000 := by
        have := roundTo_le 4 w.2.1
        norm_num at this ⊢
        exact this
      rw [h3]
      rw [htot] at h2
      calc roundTo 4 w.2.1 ≤ w.2.1 + 1/20000 := h4
        _ ≤ totalSize book.asks * pct + 1/20000 := by linarith
        _ = pct * totalSize book.asks + 1/20000 := by ring
  · intro book shares pct r h
    obtain ⟨hbids, hss, hr⟩ := simulate_sell_some book shares pct r h
    have htot : totalSize (sortedBids book) = totalSize book.bids :=
      totalSize_insertionSort bidGe book.bids
    set ms := min shares (totalSize (sortedBids book) * pct) with hms
    by_cases hneg : ms ≤ 0
    · by_cases hz : ms = 0
      · rw [sellWalk_of_nonpos _ _ _ _ hneg] at hss
        simp [hz] at hss
      · rw [sellWalk_of_nonpos _ _ _ _ hneg] at hss
        simp at hss
    · push_neg at hneg
      have hrem : 0 ≤ (sellWalk (sortedBids book) ms 0 0).1 :=
        sellWalk_remaining_nonneg _ _ _ _ (le_of_lt hneg)
      have h2 : ms - (sellWalk (sortedBids book) ms 0 0).1 ≤ ms := by linarith
      have h3 : r.shares_sold = roundTo 4 (ms - (sellWalk (sortedBids book) ms 0 0).1) := by
        rw [hr]; rfl
      have h4 : roundTo 4 (ms - (sellWalk (sortedBids book) ms 0 0).1)
          ≤ ms - (sellWalk (sortedBids book) ms 0 0).1 + 1/20000 := by
        have := roundTo_le 4 (ms - (sellWalk (sortedBids book) ms 0 0).1)
        norm_num at this ⊢
        exact this
      rw [h3]
      have h5 : ms ≤ min shares (pct * totalSize book.bids) := by
        rw [hms, htot, mul_comm]
      calc roundTo 4 (ms - (sellWalk (sortedBids book) ms 0 0).1)
          ≤ ms - (sellWalk (sortedBids book) ms 0 0).1 + 1/20000 := h4
        _ ≤ ms + 1/20000 := by linarith
        _ ≤ min shares (pct * totalSize book.bids) + 1/20000 := by linarith

/-- C3 witness: the amended bound instantiated at `bookC3` (buy) and
`bookSellTen` (sell). -/
theorem C3_depth_cap_rounded_witness :
    fillC3.shares ≤ (1/10) * totalSize bookC3.asks + 1/20000
    ∧ fillSellTen.shares_sold ≤ min 5 ((1/10) * totalSize bookSellTen.bids) + 1/20000 :=
  ⟨C3_depth_cap_rounded.1 bookC3 100 (1/10) fillC3 (by decide),
   C3_depth_cap_rounded.2 bookSellTen 5 (1/10) fillSellTen (by decide)⟩

/-! ## Claim C5 — buying walks up the book -/

/-- C5 counterexample: on `bookC5` (single ask priced 0.1234561, seven
decimal places, all hypotheses of the claim satisfied), the reported
`avg_price` is `roundTo 6` of the true average and lands strictly below
`best_ask`, refuting `avg_price ≥ best_ask` as stated. -/
theorem C5_avg_price_counterexample :
    simulate_buy bookC5 1 (1/10) = .ok (some fillC5)
    ∧ bookC5.asks ≠ [] ∧ (∀ l ∈ bookC5.asks, 0 < l.price) ∧ (0 : ℚ) < 1
    ∧ fillC5.avg_price < fillC5.best_ask := by decide

/-- C5 (amended): for a non-empty ask book with positive prices and a
positive notional, a returned fill has non-negative `slippage_vs_best`, its
`best_ask` field is the lowest ask price, and the un-rounded average walks
up from it, so the reported 6-decimal `avg_price` is at least
`best_ask − 0.0000005`. -/
theorem C5_buy_walks_up (book : Book) (amount : ℚ) (r : BuyFill)
    (hne : book.asks ≠ []) (hpos : ∀ l ∈ book.asks, 0 < l.price) (hamt : 0 < amount)
    (h : simulate_buy book amount (1/10) = .ok (some r)) :
    0 ≤ r.slippage_vs_best
    ∧ r.best_ask - 1/2000000 ≤ r.avg_price
    ∧ ∀ l ∈ book.asks, r.best_ask ≤ l.price := by
  obtain ⟨w, hw, hts, hr⟩ := simulate_buy_some book amount (1/10) r h
  have hsne : sortedAsks book ≠ [] := by
    intro hcon
    have := (List.perm_insertionSort askLe book.asks).length_eq
    rw [show List.insertionSort askLe book.asks = sortedAsks book from rfl, hcon] at this
    exact hne (List.length_eq_zero.mp this.symm)
  obtain ⟨a, rest, heq⟩ := List.exists_cons_of_ne_nil hsne
  have hsorted : List.Sorted askLe (sortedAsks book) := List.sorted_insertionSort askLe book.asks
  have hball : ∀ l ∈ sortedAsks book, a.price ≤ l.price := by
    intro l hl
    rw [heq] at hl hsorted
    exact head_price_min a rest hsorted l hl
  have hbapos : 0 < a.price := by
    apply hpos
    apply mem_of_mem_insertionSort askLe
    rw [show List.insertionSort askLe book.asks = sortedAsks book from rfl, heq]
    exact List.mem_cons_self a rest
  have hba : bestAskOf (sortedAsks book) = a.price := by rw [heq]; rfl
  have hcost := buyWalk_cost a.price (sortedAsks book) amount
    (totalSize (sortedAsks book) * (1/10)) 0 0 0 w hball (le_refl 0) (by simp) hw
  have htspos : 0 < w.2.1 := lt_of_le_of_ne hcost.1 (Ne.symm hts)
  have havg : a.price ≤ w.2.2.1 / w.2.1 := (le_div_iff₀ htspos).mpr hcost.2
  have hslip : 0 ≤ (w.2.2.1 / w.2.1 - a.price) / a.price :=
    div_nonneg (by linarith) (le_of_lt hbapos)
  have hfields : r.slippage_vs_best
        = roundTo 6 (if 0 < bestAskOf (sortedAsks book) then
            (w.2.2.1 / w.2.1 - bestAskOf (sortedAsks book)) / bestAskOf (sortedAsks book) else 0)
      ∧ r.avg_price = roundTo 6 (w.2.2.1 / w.2.1)
      ∧ r.best_ask = bestAskOf (sortedAsks book) := by
    rw [hr]
    exact ⟨rfl, rfl, rfl⟩
  refine ⟨?_, ?_, ?_⟩
  · rw [hfields.1, hba, if_pos hbapos]
    exact roundTo_nonneg 6 _ hslip
  · rw [hfields.2.1, hfields.2.2, hba]
    have h1 := roundTo_ge 6 (w.2.2.1 / w.2.1)
    have h2 : (1 : ℚ) / (2 * 10 ^ 6) = 1/2000000 := by norm_num
    rw [h2] at h1
    linarith
  · intro l hl
    rw [hfields.2.2, hba]
    apply hball
    exact (List.perm_insertionSort askLe book.asks).mem_iff.mpr hl

/-- C5 witness: the amended statement instantiated at `bookC5`. -/
theorem C5_buy_walks_up_witness :
    0 ≤ fillC5.slippage_vs_best
    ∧ fillC5.best_ask - 1/2000000 ≤ fillC5.avg_price
    ∧ ∀ l ∈ bookC5.asks, fillC5.best_ask ≤ l.price :=
  C5_buy_walks_up bookC5 1 fillC5 (by decide) (by decide) (by norm_num) (by decide)

/-! ## Claim C6 — shares × avg_price versus total_cost -/

/-- C6 counterexample: on `bookC6` the fill reports `shares = 1 000 000`,
`avg_price = 0.123456` and `total_cost = 123456.1`; the product differs
from the reported cost by $0.10, far beyond 4-decimal agreement. -/
theorem C6_roundtrip_counterexample :
    simulate_buy bookC6 1000000000 (1/10) = .ok (some fillC6)
    ∧ ¬ (|fillC6.shares * fillC6.avg_price - fillC6.total_cost| ≤ 1/10000) := by decide

/-- C6 (amended): the un-rounded totals satisfy `shares × avg_price =
total_cost` exactly; the reported fields satisfy it only up to an error
that grows with the fill size — at most `|shares|·5·10⁻⁷ +
|avg_price|·5·10⁻⁵ + 5·10⁻⁵ + 5·10⁻⁵·5·10⁻⁷`. -/
theorem C6_roundtrip_bound (book : Book) (amount pct : ℚ) (r : BuyFill)
    (h : simulate_buy book amount pct = .ok (some r)) :
    |r.shares * r.avg_price - r.total_cost|
      ≤ |r.shares| * (1/2000000) + |r.avg_price| * (1/20000)
        + 1/20000 + (1/20000) * (1/2000000) := by
  obtain ⟨w, hw, hts, hr⟩ := simulate_buy_some book amount pct r h
  have hS : r.shares = roundTo 4 w.2.1 := by rw [hr]; rfl
  have hA : r.avg_price = roundTo 6 (w.2.2.1 / w.2.1) := by rw [hr]; rfl
  have hC : r.total_cost = roundTo 4 w.2.2.1 := by rw [hr]; rfl
  set ts := w.2.1
  set tc := w.2.2.1
  set avg := tc / ts with havg
  have hexact : ts * avg = tc := by
    rw [havg, mul_div_cancel₀ _ hts]
  have h1 : |r.avg_price - avg| ≤ 1/2000000 := by
    have := abs_roundTo_sub 6 avg
    rw [← hA] at this
    norm_num at this ⊢
    exact this
  have h2 : |r.shares - ts| ≤ 1/20000 := by
    have := abs_roundTo_sub 4 ts
    rw [← hS] at this
    norm_num at this ⊢
    exact this
  have h3 : |r.total_cost - tc| ≤ 1/20000 := by
    have := abs_roundTo_sub 4 tc
    rw [← hC] at this
    norm_num at this ⊢
    exact this
  have havgbound : |avg| ≤ |r.avg_price| + 1/2000000 := by
    have := abs_sub_abs_le_abs_sub avg r.avg_price
    rw [abs_sub_comm] at this
    linarith
  have hdecomp : r.shares * r.avg_price - r.total_cost
      = r.shares * (r.avg_price - avg) + avg * (r.shares - ts) + (tc - r.total_cost) := by
    linear_combination hexact
  calc |r.shares * r.avg_price - r.total_cost|
      = |r.shares * (r.avg_price - avg) + avg * (r.shares - ts) + (tc - r.total_cost)| := by
        rw [hdecomp]
    _ ≤ |r.shares * (r.avg_price - avg) + avg * (r.shares - ts)| + |tc - r.total_cost| :=
        abs_add _ _
    _ ≤ |r.shares * (r.avg_price - avg)| + |avg * (r.shares - ts)| + |tc - r.total_cost| := by
        have := abs_add (r.shares * (r.avg_price - avg)) (avg * (r.shares - ts))
        linarith
    _ = |r.shares| * |r.avg_price - avg| + |avg| * |r.shares - ts| + |r.total_cost - tc| := by
        rw [abs_mul, abs_mul, abs_sub_comm tc r.total_cost]
    _ ≤ |r.shares| * (1/2000000) + (|r.avg_price| + 1/2000000) * (1/20000) + 1/20000 := by
        have ha := abs_nonneg r.shares
        have hb := abs_nonneg avg
        have hc := mul_le_mul_of_nonneg_left h1 ha
        have hd := mul_le_mul_of_nonneg_left h2 hb
        have he : |avg| * |r.shares - ts| ≤ (|r.avg_price| + 1/2000000) * (1/20000) := by
          calc |avg| * |r.shares - ts| ≤ |avg| * (1/20000) := mul_le_mul_of_nonneg_left h2 hb
            _ ≤ (|r.avg_price| + 1/2000000) * (1/20000) := by
                apply mul_le_mul_of_nonneg_right havgbound
                norm_num
        linarith
    _ = |r.shares| * (1/2000000) + |r.avg_price| * (1/20000)
        + 1/20000 + (1/20000) * (1/2000000) := by ring

/-- C6 witness: the amended bound instantiated at the benign book
`bookC6w`, where the product and the cost agree exactly. -/
theorem C6_roundtrip_bound_witness :
    |fillC6w.shares * fillC6w.avg_price - fillC6w.total_cost|
      ≤ |fillC6w.shares| * (1/2000000) + |fillC6w.avg_price| * (1/20000)
        + 1/20000 + (1/20000) * (1/2000000) :=
  C6_roundtrip_bound bookC6w 10 (1/10) fillC6w (by decide)

/-! ## Claim C4 — settlement on resolution -/

/-- C4 counterexample: `tC4` has entry price 0.123456 and 3 shares, so
`(1.00 − entry_price) × shares = 2.629632`; the settlement loop passes the
pnl through `round(pnl, 4)`, so the position is closed with pnl 2.6296 and
`realized_pnl` rises by 2.6296, not by the exact product the claim states. -/
theorem C4_rounded_pnl_counterexample :
    (sync_one_trade resC4 obEmpty 0 sC4 tC4).1.realized_pnl = 26296/10000
    ∧ ¬ ((sync_one_trade resC4 obEmpty 0 sC4 tC4).1.realized_pnl
          = sC4.realized_pnl + (1 - tC4.entry_price) * tC4.shares) := by decide

/-- C4 (amended): for an OPEN position whose market resolves with a
definitive winner, the settlement body closes it as WON (exit 1.00, pnl
`round₄((1 − entry_price) × shares)`) when the lower-cased side matches the
winner, else as LOST (exit 0.00, pnl `round₄(−entry_cost)`); `realized_pnl`
rises by exactly that rounded pnl, and the outcome is independent of the
order-book feed (no order-book lookup happens for that position). -/
theorem C4_resolution_settlement (resolutionOf : String → Option Resolution)
    (orderbookOf orderbookOf2 : String → Option Book) (now : ℚ)
    (s : StrategyState) (trade : PaperTrade) (res : Resolution)
    (hopen : trade.status = "OPEN")
    (hmem : ∃ t ∈ s.trades, t.trade_id = trade.trade_id)
    (hmid : trade.market_id ≠ "")
    (hres : resolutionOf trade.market_id = some res)
    (hresolved : res.resolved = true) (hwinner : res.result ≠ "") :
    sync_one_trade resolutionOf orderbookOf now s trade
        = sync_one_trade resolutionOf orderbookOf2 now s trade
    ∧ (pyLower trade.side = res.result →
        sync_one_trade resolutionOf orderbookOf now s trade
          = ((close_trade s trade.trade_id "WON" 1
                (roundTo 4 ((1 - trade.entry_price) * trade.shares)) 0 now).1,
             some ("WON", (1 - trade.entry_price) * trade.shares), none)
        ∧ (sync_one_trade resolutionOf orderbookOf now s trade).1.realized_pnl
            = s.realized_pnl + roundTo 4 ((1 - trade.entry_price) * trade.shares))
    ∧ (pyLower trade.side ≠ res.result →
        sync_one_trade resolutionOf orderbookOf now s trade
          = ((close_trade s trade.trade_id "LOST" 0
                (roundTo 4 (-trade.entry_cost)) 0 now).1,
             some ("LOST", -trade.entry_cost), none)
        ∧ (sync_one_trade resolutionOf orderbookOf now s trade).1.realized_pnl
            = s.realized_pnl + roundTo 4 (-trade.entry_cost)) := by
  have hcond : res.resolved = true ∧ res.result ≠ "" := ⟨hresolved, hwinner⟩
  have hstep : ∀ f : String → Option Book,
      sync_one_trade resolutionOf f now s trade
        = if pyLower trade.side = res.result then
            ((close_trade s trade.trade_id "WON" 1
                (roundTo 4 ((1 - trade.entry_price) * trade.shares)) 0 now).1,
             some ("WON", (1 - trade.entry_price) * trade.shares), none)
          else
            ((close_trade s trade.trade_id "LOST" 0
                (roundTo 4 (-trade.entry_cost)) 0 now).1,
             some ("LOST", -trade.entry_cost), none) := by
    intro f
    simp only [sync_one_trade, if_pos hmid, hres, if_pos hcond]
  refine ⟨by rw [hstep orderbookOf, hstep orderbookOf2], ?_, ?_⟩
  · intro hside
    rw [hstep orderbookOf, if_pos hside]
    exact ⟨rfl, close_trade_realized s trade.trade_id "WON" 1
      (roundTo 4 ((1 - trade.entry_price) * trade.shares)) 0 now hmem⟩
  · intro hside
    rw [hstep orderbookOf, if_neg hside]
    exact ⟨rfl, close_trade_realized s trade.trade_id "LOST" 0
      (roundTo 4 (-trade.entry_cost)) 0 now hmem⟩

/-- C4 witness: the amended statement instantiated at `tC4w` (side "YES",
winner "yes"), with the WON implication discharged. -/
theorem C4_resolution_settlement_witness :
    sync_one_trade resC4 obEmpty 0 sC4w tC4w
      = ((close_trade sC4w tC4w.trade_id "WON" 1
            (roundTo 4 ((1 - tC4w.entry_price) * tC4w.shares)) 0 0).1,
         some ("WON", (1 - tC4w.entry_price) * tC4w.shares), none)
    ∧ (sync_one_trade resC4 obEmpty 0 sC4w tC4w).1.realized_pnl
        = sC4w.realized_pnl + roundTo 4 ((1 - tC4w.entry_price) * tC4w.shares) :=
  (C4_resolution_settlement resC4 obEmpty obEmpty 0 sC4w tC4w
      { resolved := true, result := "yes" }
      (by decide) ⟨tC4w, by decide, rfl⟩ (by decide) (by decide)
      (by decide) (by decide)).2.1 (by decide)

/-! ## Claim C10 — take-profit closes the whole position on a partial fill -/

/-- C10: when take-profit triggers (best bid ≥ 0.30) and `simulate_sell`
succeeds but its depth cap sells fewer shares than the position holds, the
position is closed SOLD in its entirety: the trade list keeps its length
(no residual position), the exit price is the partial fill's average price,
pnl is the partial proceeds minus the **full** entry cost, `realized_pnl`
rises by exactly that, and cash rises by only the partial proceeds — the
unsold remainder simply disappears.  (`gridPoint 4 entry_cost` holds for
every position the program creates, since entry costs come from the
4-decimal-rounded `total_cost`.) -/
theorem C10_partial_fill_full_close (resolutionOf : String → Option Resolution)
    (orderbookOf : String → Option Book) (now : ℚ)
    (s : StrategyState) (trade : PaperTrade) (book : Book) (r : SellFill)
    (hopen : trade.status = "OPEN")
    (hfind : s.trades.find? (fun u => u.trade_id == trade.trade_id) = some trade)
    (hnores : trade.market_id = ""
      ∨ ∀ res, resolutionOf trade.market_id = some res
          → ¬ (res.resolved = true ∧ res.result ≠ ""))
    (htok : trade.token_id ≠ "")
    (hbook : orderbookOf trade.token_id = some book)
    (htp : TAKE_PROFIT_BID ≤ book.best_bid)
    (hsell : simulate_sell book trade.shares (1/10) = some r)
    (hpart : r.shares_sold < trade.shares)
    (hcost : gridPoint 4 trade.entry_cost) :
    sync_one_trade resolutionOf orderbookOf now s trade
      = ((close_trade s trade.trade_id "SOLD" (roundTo 6 r.avg_price)
            (roundTo 4 (r.proceeds - trade.entry_cost)) 0 now).1,
         some ("SOLD", r.proceeds - trade.entry_cost),
         some (trade.token_id, book.best_bid))
    ∧ (sync_one_trade resolutionOf orderbookOf now s trade).1.trades.length
        = s.trades.length
    ∧ (sync_one_trade resolutionOf orderbookOf now s trade).1.realized_pnl
        = s.realized_pnl + (r.proceeds - trade.entry_cost)
    ∧ get_cash (sync_one_trade resolutionOf orderbookOf now s trade).1
        = get_cash s + r.proceeds := by
  have hmem : ∃ t ∈ s.trades, t.trade_id = trade.trade_id :=
    ⟨trade, List.mem_of_find?_eq_some hfind, rfl⟩
  have hstep : sync_one_trade resolutionOf orderbookOf now s trade
      = takeProfitStep orderbookOf now s trade := by
    by_cases hmid : trade.market_id = ""
    · simp [sync_one_trade, hmid]
    · rcases hnores with hmid2 | hno
      · exact absurd hmid2 hmid
      · simp only [sync_one_trade, if_pos hmid]
        cases hr2 : resolutionOf trade.market_id with
        | none => simp
        | some res => simp only [if_neg (hno res hr2)]
  have htps : takeProfitStep orderbookOf now s trade
      = ((close_trade s trade.trade_id "SOLD" (roundTo 6 r.avg_price)
            (roundTo 4 (r.proceeds - trade.entry_cost)) 0 now).1,
         some ("SOLD", r.proceeds - trade.entry_cost),
         some (trade.token_id, book.best_bid)) := by
    simp only [takeProfitStep, if_neg htok, hbook, if_pos htp, hsell]
  have hgridp : gridPoint 4 r.proceeds := by
    obtain ⟨hbids, hss, hreq⟩ := simulate_sell_some book trade.shares (1/10) r hsell
    have : r.proceeds = roundTo 4
        (sellWalk (sortedBids book)
          (min trade.shares (totalSize (sortedBids book) * (1/10))) 0 0).2.1 := by
      rw [hreq]; rfl
    rw [this]
    exact roundTo_gridPoint 4 _
  have h4 : roundTo 4 (r.proceeds - trade.entry_cost) = r.proceeds - trade.entry_cost :=
    roundTo_eq_self 4 _ (gridPoint_sub 4 _ _ hgridp hcost)
  refine ⟨by rw [hstep, htps], ?_, ?_, ?_⟩
  · rw [hstep, htps]
    exact close_trade_length s trade.trade_id "SOLD" (roundTo 6 r.avg_price)
      (roundTo 4 (r.proceeds - trade.entry_cost)) 0 now
  · rw [hstep, htps]
    show (close_trade s trade.trade_id "SOLD" (roundTo 6 r.avg_price)
        (roundTo 4 (r.proceeds - trade.entry_cost)) 0 now).1.realized_pnl
      = s.realized_pnl + (r.proceeds - trade.entry_cost)
    rw [close_trade_realized s trade.trade_id "SOLD" (roundTo 6 r.avg_price)
      (roundTo 4 (r.proceeds - trade.entry_cost)) 0 now hmem, h4]
  · rw [hstep, htps]
    have hst := close_trade_found_state s trade.trade_id "SOLD" (roundTo 6 r.avg_price)
      (roundTo 4 (r.proceeds - trade.entry_cost)) 0 now hmem
    have hinv := openCosts_closeFirst trade.trade_id "SOLD" (roundTo 6 r.avg_price) now
      (roundTo 4 (r.proceeds - trade.entry_cost)) 0 s.trades trade hfind hopen (by decide)
    show get_cash (close_trade s trade.trade_id "SOLD" (roundTo 6 r.avg_price)
        (roundTo 4 (r.proceeds - trade.entry_cost)) 0 now).1 = get_cash s + r.proceeds
    rw [hst]
    simp only [get_cash, get_total_invested, get_open_trades] at *
    rw [hinv, h4]
    ring

/-- C10 witness: the theorem instantiated at `tC10` (5 shares, entry cost
$0.25) against `bookSellTen`, whose 10% cap sells only 1 share for $0.50. -/
theorem C10_partial_fill_full_close_witness :
    sync_one_trade resEmpty obC10 0 sC10 tC10
      = ((close_trade sC10 tC10.trade_id "SOLD" (roundTo 6 fillSellTen.avg_price)
            (roundTo 4 (fillSellTen.proceeds - tC10.entry_cost)) 0 0).1,
         some ("SOLD", fillSellTen.proceeds - tC10.entry_cost),
         some (tC10.token_id, bookSellTen.best_bid))
    ∧ (sync_one_trade resEmpty obC10 0 sC10 tC10).1.trades.length = sC10.trades.length
    ∧ (sync_one_trade resEmpty obC10 0 sC10 tC10).1.realized_pnl
        = sC10.realized_pnl + (fillSellTen.proceeds - tC10.entry_cost)
    ∧ get_cash (sync_one_trade resEmpty obC10 0 sC10 tC10).1
        = get_cash sC10 + fillSellTen.proceeds :=
  C10_partial_fill_full_close resEmpty obC10 0 sC10 tC10 bookSellTen fillSellTen
    (by decide) (by decide) (Or.inl (by decide)) (by decide) (by decide) (by decide)
    (by decide) (by decide) ⟨2500, by decide⟩

/-! ## Claim C9 — the selector mutates the catalog's selected flag -/

/-- C9 counterexample: the claim states no field of any input bracket
record is mutated, but `b["selected"] = True` is executed on dicts that
alias the catalog: after selecting from the one-bracket catalog `[bC9]`,
the catalog entry carries `selected = true` and the catalog is no longer
equal to its input value. -/
theorem C9_purity_counterexample :
    (select_bracket_spread_post parseNone "trump_posts" [bC9] none).1 ≠ [bC9]
    ∧ (select_bracket_spread_post parseNone "trump_posts" [bC9] none).1
        = [{ bC9 with selected := true }]
    ∧ bC9.selected = false := by decide

/-- C9 (amended): `select_bracket_spread` mutates the catalog exactly on
the `selected` flag of the brackets it picks: the post-call catalog keeps
its length; the entry at every selected position is the original bracket
with `selected := true`, while the entry at every non-selected position is
completely untouched; each selected position really holds the picked
bracket; and the returned selection is precisely those picked brackets
with the flag set (so every returned bracket is flagged). -/
theorem C9_mutates_only_selected_flag (parse : String → Option (ℚ × ℚ))
    (strategy_name : String) (qualifying : List Bracket) (prediction : Option ℚ) :
    (select_bracket_spread_post parse strategy_name qualifying prediction).1.length
        = qualifying.length
    ∧ (∀ i : ℕ,
        (select_bracket_spread_post parse strategy_name qualifying prediction).1.get? i
          = if (selectedIdxs parse strategy_name qualifying prediction).contains i then
              (qualifying.get? i).map fun b => { b with selected := true }
            else qualifying.get? i)
    ∧ (∀ p ∈ selectedPairs parse strategy_name qualifying prediction,
        qualifying.get? p.1 = some p.2)
    ∧ ((select_bracket_spread_post parse strategy_name qualifying prediction).2
        = (selectedPairs parse strategy_name qualifying prediction).map
            fun p => { p.2 with selected := true })
    ∧ (select_bracket_spread_post parse strategy_name qualifying prediction).2.all
        (fun b => b.selected) = true := by
  refine ⟨flagFrom_length _ 0 _, ?_, ?_, rfl, ?_⟩
  · intro i
    show (flagFrom (selectedIdxs parse strategy_name qualifying prediction) 0 qualifying).get? i
      = _
    rw [flagFrom_get?, Nat.zero_add]
    by_cases hc : i ∈ selectedIdxs parse strategy_name qualifying prediction
    · simp [hc]
    · simp [hc]
  · exact fun p hp => selectedPairs_get? parse strategy_name qualifying prediction p hp
  · rw [List.all_eq_true]
    intro b hb
    obtain ⟨p, hp, hpe⟩ := List.mem_map.mp hb
    rw [← hpe]

/-- C9 witness: the amended statement instantiated at the one-bracket
catalog `[bC9]`, discharging the picked-pair membership hypothesis at
`(0, bC9)` — the single catalog position, which the selector picks. -/
theorem C9_mutates_only_selected_flag_witness :
    [bC9].get? (0 : ℕ) = some bC9 :=
  (C9_mutates_only_selected_flag parseNone "trump_posts" [bC9] none).2.2.1 (0, bC9) (by decide)

/-! ## Claim C8 — even-spread selection without an estimate -/

/-- C8: with no estimate, `select_bracket_spread` behaves exactly as the
spec describes: clamp the target count to the number of qualifying
brackets, score each bracket by its range midpoint (plus-infinity when the
title is unparseable), stable-sort ascending by midpoint, then return all
brackets when the target reaches their number, the middle element when the
target is one, and otherwise the elements at `round(i·(n−1)/(t−1))` for
`i = 0..t−1` (nearest integer, ties to even as Python's `round`). -/
theorem C8_even_spread_refines_spec (parse : String → Option (ℚ × ℚ))
    (strategy_name : String) (qualifying : List Bracket) :
    select_bracket_spread parse strategy_name qualifying none
      = selectSpreadSpec parse (targetBrackets strategy_name) qualifying := by
  by_cases hq : qualifying = []
  · simp [select_bracket_spread, selectSpreadSpec, hq]
  · simp only [select_bracket_spread, selectSpreadSpec, if_neg hq, chooseScored,
      Bool.false_eq_true, if_false]
    rw [sortScored_length, List.length_map]

end ArbBot
